import Mathlib

/-!
Verification of the pixel-level compositing engine of the pepe-manager image
API (`src/image_utilities.rs`) against its natural-language specification.

The Rust code is shallowly embedded: an RGBA raster buffer (`image::RgbaImage`
/ `DynamicImage`) becomes a structure holding its dimensions and a sample
function; `u32` machine arithmetic is embedded as `Nat` with explicit
reduction modulo `2 ^ 32` where the release build wraps (the repository's own
comment inside `round_image` records that the project runs release builds,
where arithmetic overflow wraps instead of panicking); `i32` arithmetic is
embedded as `Int` with explicit wrapping into `[-2^31, 2^31)`.  Conversions
performed in the source with `try_into().unwrap()` panic on failure in every
build profile, so the functions containing them return `Except`, with the
panic as the error case.  Floating-point computations (the trigonometric
rotation map, the box-blur average, the crate's alpha blend) are abstracted
as function parameters because no verified property depends on their numeric
values.  Loops (`for i in 0..n`) are embedded as folds over `List.range n`,
generalized over the loop bound so that the loop invariants can be proved by
induction on the number of processed iterations.
-/

namespace PepeImage

/-- One RGBA sample (`Rgba<u8>`): four 8-bit channels, embedded as naturals. -/
structure Rgba where
  r : Nat
  g : Nat
  b : Nat
  a : Nat
deriving DecidableEq

/-- A raster buffer (`ImageBuffer<Rgba<u8>, Vec<u8>>` / `DynamicImage` in the
source): a width, a height, and the sample at each coordinate.  Samples are
meaningful for coordinates below the dimensions. -/
@[ext] structure Img where
  width : Nat
  height : Nat
  pix : Nat → Nat → Rgba

/-- The modulus of `u32` arithmetic. -/
def U32 : Nat := 4294967296

/-- `u32` addition of the release build: wraps modulo `2 ^ 32`. -/
def add32 (x y : Nat) : Nat := (x + y) % U32

/-- `u32` subtraction of the release build: wraps modulo `2 ^ 32`
(both arguments are `u32` values, hence below `U32`). -/
def sub32 (x y : Nat) : Nat := (x + (U32 - y)) % U32

/-- `u32` squaring (`.pow(2)`) of the release build: wraps modulo `2 ^ 32`. -/
def sq32 (x : Nat) : Nat := x * x % U32

/-- `GenericImage::put_pixel` on an in-bounds coordinate: replace one sample,
leaving the dimensions and every other sample unchanged. -/
def putPixel (img : Img) (x y : Nat) (p : Rgba) : Img :=
  { img with pix := fun u v => if u = x ∧ v = y then p else img.pix u v }

/-- The single error kind produced by the compositor:
`ImageError::Parameter(ParameterErrorKind::DimensionMismatch)`. -/
inductive ImgError where
  | dimensionMismatch
deriving DecidableEq

/-- The inner loop of `copy_within_alpha_threshold` (`for i in 0..other.width()`),
generalized over the number `n` of columns processed for row `k`.  A sample of
the overlay whose alpha channel strictly exceeds the threshold is stamped onto
the destination at `(i + x, k + y)`; other samples are skipped. -/
def stampRowN (ov : Img) (x y threshold k : Nat) (acc : Img) (n : Nat) : Img :=
  (List.range n).foldl
    (fun a i =>
      let p := ov.pix i k
      if threshold < p.a then putPixel a (add32 i x) (add32 k y) p else a)
    acc

/-- The outer loop of `copy_within_alpha_threshold` (`for k in 0..other.height()`),
generalized over the number `n` of rows processed. -/
def stampOuterN (ov : Img) (x y threshold : Nat) (acc : Img) (n : Nat) : Img :=
  (List.range n).foldl (fun a k => stampRowN ov x y threshold k a ov.width) acc

/-- `AlphaImplementations::copy_within_alpha_threshold` for
`ImageBuffer<Rgba<u8>, Vec<u8>>`: the bounds check (with the release build's
wrapping `u32` additions), then the stamping double loop. -/
def copy_within_alpha_threshold (self other : Img) (x y threshold : Nat) :
    Except ImgError Img :=
  if self.width < add32 other.width x ∨ self.height < add32 other.height y then
    Except.error ImgError.dimensionMismatch
  else
    Except.ok (stampOuterN other x y threshold self other.height)

/-- The inner loop of `copy_with_blend`: an opaque-enough sample is stamped,
any other sample is blended into the destination background by
`Pixel::blend`.  The crate's blend (floating-point source-over compositing of
the overlay sample onto the background sample) is abstracted as the parameter
`blendRgba bg p`. -/
def blendRowN (blendRgba : Rgba → Rgba → Rgba) (ov : Img) (x y threshold k : Nat)
    (acc : Img) (n : Nat) : Img :=
  (List.range n).foldl
    (fun a i =>
      let p := ov.pix i k
      if threshold < p.a then putPixel a (add32 i x) (add32 k y) p
      else
        let bg := a.pix (add32 i x) (add32 k y)
        putPixel a (add32 i x) (add32 k y) (blendRgba bg p))
    acc

/-- The outer loop of `copy_with_blend`, generalized over the rows processed. -/
def blendOuterN (blendRgba : Rgba → Rgba → Rgba) (ov : Img) (x y threshold : Nat)
    (acc : Img) (n : Nat) : Img :=
  (List.range n).foldl (fun a k => blendRowN blendRgba ov x y threshold k a ov.width) acc

/-- `AlphaImplementations::copy_with_blend` for `ImageBuffer<Rgba<u8>, Vec<u8>>`:
the same bounds check as `copy_within_alpha_threshold`, then the blending
double loop. -/
def copy_with_blend (blendRgba : Rgba → Rgba → Rgba) (self other : Img)
    (x y threshold : Nat) : Except ImgError Img :=
  if self.width < add32 other.width x ∨ self.height < add32 other.height y then
    Except.error ImgError.dimensionMismatch
  else
    Except.ok (blendOuterN blendRgba other x y threshold self other.height)

/-- `CLEARPIXEL`: `Rgba([0, 0, 0, 0])`, the fully transparent sample. -/
def CLEARPIXEL : Rgba := ⟨0, 0, 0, 0⟩

/-- The inner loop of `round_image` (`for h in 0..img.height()`), generalized
over the number `n` of rows processed for column `w`; `xsq` is the already
computed column term `(w - img.width() / 2).pow(2)` and `rsq` the radius
bound.  All arithmetic wraps as in the source's release build (`put_pixel`
never changes the dimensions, so reading them mid-loop equals reading them
from the input). -/
def roundInner (img0 : Img) (rsq w xsq : Nat) (acc : Img) (n : Nat) : Img :=
  (List.range n).foldl
    (fun a h =>
      let y := sq32 (sub32 h (img0.height / 2))
      if rsq < add32 xsq y then putPixel a w h CLEARPIXEL else a)
    acc

/-- The outer loop of `round_image` (`for w in 0..img.width()`), generalized
over the number `n` of columns processed. -/
def roundOuter (img0 : Img) (rsq : Nat) (acc : Img) (n : Nat) : Img :=
  (List.range n).foldl
    (fun a w =>
      let x := sq32 (sub32 w (img0.width / 2))
      roundInner img0 rsq w x a img0.height)
    acc

/-- `round_image`: clears every sample outside the inscribed circle, with the
radius computed from the smaller dimension and with the source's (release
build) wrapping `u32` arithmetic in the centered differences and squares. -/
def round_image (img : Img) : Img :=
  let radius_squared :=
    if img.width < img.height then sq32 (img.width / 2) else sq32 (img.height / 2)
  roundOuter img radius_squared img img.width

/-- The clearing condition actually evaluated by `round_image` at sample
`(u, v)`, in the wrapping `u32` arithmetic of the release build. -/
def roundCond (img : Img) (u v : Nat) : Prop :=
  (if img.width < img.height then sq32 (img.width / 2) else sq32 (img.height / 2)) <
    add32 (sq32 (sub32 u (img.width / 2))) (sq32 (sub32 v (img.height / 2)))

instance (img : Img) (u v : Nat) : Decidable (roundCond img u v) :=
  inferInstanceAs (Decidable (_ < _))

/-- Modelled from the spec: the circular mask as the specification states it
(`mask_to_circle`), with the centered differences evaluated as signed
mathematical integers before squaring and `radius_squared = (min(width,
height) / 2)^2` in exact integer arithmetic.  The repository's `round_image`
is compared against this definition. -/
def round_image_signed (img : Img) : Img :=
  { img with
    pix := fun w h =>
      if w < img.width ∧ h < img.height ∧
          ((min img.width img.height / 2 : Nat) : Int) ^ 2 <
            ((w : Int) - ((img.width / 2 : Nat) : Int)) ^ 2 +
              ((h : Int) - ((img.height / 2 : Nat) : Int)) ^ 2 then
        CLEARPIXEL
      else img.pix w h }

/-- `imageops::crop` of the image crate, as invoked by `DynamicImage::crop`:
the requested rectangle is clamped to the image bounds and the resulting
sub-image is copied out. -/
def crop (img : Img) (x y w h : Nat) : Img :=
  let x2 := min x img.width
  let y2 := min y img.height
  let h2 := min h (img.height - y2)
  let w2 := min w (img.width - x2)
  { width := w2, height := h2, pix := fun u v => img.pix (x2 + u) (y2 + v) }

/-- The output struct of `out_of_bounds_crop`. -/
structure BoundaryCropOutput where
  image : Img
  x_pos : Nat
  y_pos : Nat

/-- A panic raised by a failed `try_into().unwrap()` conversion (these panic
in every build profile). -/
inductive CropPanic where
  | panic
deriving DecidableEq

/-- `i32` wrapping of the release build. -/
def wrapI32 (z : Int) : Int := (z + 2147483648) % 4294967296 - 2147483648

/-- `u32 → i32` via `try_into().unwrap()`: panics when the value does not fit. -/
def i32FromU32 (n : Nat) : Except CropPanic Int :=
  if n < 2147483648 then Except.ok (n : Int) else Except.error CropPanic.panic

/-- `i32 → u32` via `try_into().unwrap()`: panics on negative values. -/
def u32FromI32 (z : Int) : Except CropPanic Nat :=
  if 0 ≤ z then Except.ok z.toNat else Except.error CropPanic.panic

/-- `out_of_bounds_crop`: crops an image meant to be placed at the signed
position `(x_pos, y_pos)` on a `max_width × max_height` canvas.  The `u32`
and `i32` arithmetic wraps as in the release build, and every
`try_into().unwrap()` of the source is an explicit panic case.  The y-axis is
processed first, then the x-axis on the already cropped image, exactly as in
the source — including the source's negative-x branch, which passes `-x_pos`
as the **y** offset of `crop` and `width_total` as the crop width. -/
def out_of_bounds_crop (image : Img) (x_pos y_pos : Int)
    (max_width max_height : Nat) : Except CropPanic BoundaryCropOutput := do
  let avatar_height_signed ← i32FromU32 image.height
  let height_total := wrapI32 (avatar_height_signed + y_pos)
  let max_height_signed ← i32FromU32 max_height
  let yState ←
    if max_height_signed < height_total then do
      let y_pos_unsigned ← u32FromI32 y_pos
      let height_total2 := add32 image.height y_pos_unsigned
      let new_height := sub32 image.height (sub32 height_total2 max_height)
      let out_y ← u32FromI32 y_pos
      pure (crop image 0 0 image.width new_height, out_y)
    else if y_pos < 0 then do
      let neg_y ← u32FromI32 (wrapI32 (-y_pos))
      let height_total_u ← u32FromI32 height_total
      pure (crop image 0 neg_y image.width height_total_u, 0)
    else do
      let out_y ← u32FromI32 y_pos
      pure (image, out_y)
  let image2 := yState.1
  let avatar_width_signed ← i32FromU32 image2.width
  let width_total := wrapI32 (avatar_width_signed + x_pos)
  let max_width_signed ← i32FromU32 max_width
  let xState ←
    if max_width_signed < width_total then do
      let x_pos_unsigned ← u32FromI32 x_pos
      let width_total2 := add32 image2.width x_pos_unsigned
      let new_width := sub32 image2.width (sub32 width_total2 max_width)
      let out_x ← u32FromI32 x_pos
      pure (crop image2 0 0 new_width image2.height, out_x)
    else if x_pos < 0 then do
      let neg_x ← u32FromI32 (wrapI32 (-x_pos))
      let width_total_u ← u32FromI32 width_total
      pure (crop image2 0 neg_x width_total_u image2.height, 0)
    else do
      let out_x ← u32FromI32 x_pos
      pure (image2, out_x)
  pure ⟨xState.1, xState.2, yState.2⟩

/-- `RgbaImage::new(w, h)`: a zero-initialized buffer. -/
def mkImg (w h : Nat) : Img := ⟨w, h, fun _ _ => ⟨0, 0, 0, 0⟩⟩

/-- The neighbor collection of the anti-aliasing pass of `rotate`
(`for i in 0..3 { for j in 0..3 { ... } }`): the samples of `img` at the
in-range coordinates among `(x + i - 1, y + j - 1)`, in loop order.  The
coordinates are computed in `i32` with the release build's wrapping cast and
additions, and the source's in-range check
`x_new >= 0 && x_new < width.try_into().unwrap() && y_new >= 0 && y_new <
height.try_into().unwrap()` is embedded with the `&&` short-circuit order:
each `u32 → i32` conversion of a dimension is an explicit panic case,
evaluated only when the conjuncts before it hold.  The guarded
`x_new.try_into::<u32>().unwrap()` of the subsequent `get_pixel` call cannot
fail (the check just established `0 ≤ x_new`) and is `Int.toNat`. -/
def rotNeighbors (img : Img) (width height x y : Nat) :
    Except CropPanic (List Rgba) :=
  (List.range 3).foldlM
    (fun l i =>
      (List.range 3).foldlM
        (fun l2 j => do
          let x_new : Int := wrapI32 (wrapI32 (x : Int) + (i : Int) - 1)
          let y_new : Int := wrapI32 (wrapI32 (y : Int) + (j : Int) - 1)
          if 0 ≤ x_new then do
            let width_signed ← i32FromU32 width
            if x_new < width_signed then
              if 0 ≤ y_new then do
                let height_signed ← i32FromU32 height
                if y_new < height_signed then
                  pure (l2 ++ [img.pix x_new.toNat y_new.toNat])
                else pure l2
              else pure l2
            else pure l2
          else pure l2)
        l)
    []

/-- The inner loop of the first (scatter) pass of `rotate`, generalized over
the rows processed for column `x`.  The floating-point rotation of `(x, y)`
around the center followed by the saturating `as u32` cast is abstracted as
`rotMap x y`; the explicit clamps into `[0, width) × [0, height)` are the
source's. -/
def rotPass1Inner (self : Img) (rotMap : Nat → Nat → Nat × Nat) (x : Nat)
    (acc : Img) (n : Nat) : Img :=
  (List.range n).foldl
    (fun a y =>
      let xy := rotMap x y
      let x_new := if self.width ≤ xy.1 then self.width - 1 else xy.1
      let y_new := if self.height ≤ xy.2 then self.height - 1 else xy.2
      putPixel a x_new y_new (self.pix x y))
    acc

/-- The outer loop of the first pass of `rotate`. -/
def rotPass1Outer (self : Img) (rotMap : Nat → Nat → Nat × Nat) (acc : Img)
    (n : Nat) : Img :=
  (List.range n).foldl (fun a x => rotPass1Inner self rotMap x a self.height) acc

/-- The inner loop of the anti-aliasing pass of `rotate`, generalized over the
rows processed for column `x`.  The floating-point kernel average of the
in-range neighbors followed by the `as u8` casts is abstracted as `boxAvg`;
the alpha channel is written as the constant `255`, as in the source.  The
pass reads its neighbors from the buffer it is mutating, as the source does,
and propagates the panic of a failed dimension conversion inside
`rotNeighbors`. -/
def rotPass2Inner (boxAvg : List Rgba → Nat × Nat × Nat) (width height x : Nat)
    (acc : Img) (n : Nat) : Except CropPanic Img :=
  (List.range n).foldlM
    (fun a y => do
      let nbrs ← rotNeighbors a width height x y
      let rgb := boxAvg nbrs
      pure (putPixel a x y ⟨rgb.1, rgb.2.1, rgb.2.2, 255⟩))
    acc

/-- The outer loop of the anti-aliasing pass of `rotate`. -/
def rotPass2Outer (boxAvg : List Rgba → Nat × Nat × Nat) (width height : Nat)
    (acc : Img) (n : Nat) : Except CropPanic Img :=
  (List.range n).foldlM (fun a x => rotPass2Inner boxAvg width height x a height) acc

/-- `CustomRotation::rotate` for `DynamicImage`: a scatter pass writing every
source sample to its rotated (clamped) position into a fresh zeroed buffer of
the same dimensions, followed by the 3×3 box-average anti-aliasing pass that
rewrites every sample with alpha `255`.  The anti-aliasing pass converts the
buffer's dimensions to `i32` with `try_into().unwrap()` inside its in-range
check, which panics (in every build profile) whenever a dimension is at least
`2^31` and the check reaches the conversion, so the function returns
`Except` with the panic as the error case. -/
def rotate (rotMap : Nat → Nat → Nat × Nat) (boxAvg : List Rgba → Nat × Nat × Nat)
    (self : Img) : Except CropPanic Img :=
  let pass1 := rotPass1Outer self rotMap (mkImg self.width self.height) self.width
  rotPass2Outer boxAvg self.width self.height pass1 self.width

/-- `image::Frame::from_parts(buffer, left, top, delay)` with the delay given
as a numerator/denominator pair of milliseconds. -/
structure FrameT where
  buffer : Img
  left : Nat
  top : Nat
  delay_numer : Nat
  delay_denom : Nat

/-- `GifAssistant`: holds the encoded GIF byte stream. -/
structure GifAssistant where
  encoding_bytes : List Nat

/-- `APIResponseError`: the service's error value, a message string. -/
structure APIResponseError where
  message : String
deriving DecidableEq

/-- `GifAssistant::create_gif`: sets the infinite-repeat flag on the encoder,
builds one frame per index `0, …, iterations - 1` by calling the caller's
`encoding_function` with the index and (clones of) the two ingredient values,
pushing `Frame::from_parts(output, 0, 0, Delay::from_numer_denom_ms(ms, 1))`,
and finally encodes the collected frames.  Any error (`?`) aborts the whole
function.  The external encoder is abstracted: `setRepeatResult` is the
outcome of `encoder.set_repeat(Repeat::Infinite)` and `encodeFrames` the
codec's mapping from the frame list to the encoded bytes; cloning a value is
the identity in this pure embedding. -/
def create_gif {A B : Type} (setRepeatResult : Except APIResponseError Unit)
    (encodeFrames : List FrameT → Except APIResponseError (List Nat))
    (overlayed_image : A) (overlaying_image : B) (ms iterations : Nat)
    (encoding_function : Nat → A → B → Except APIResponseError Img) :
    Except APIResponseError GifAssistant := do
  setRepeatResult
  let frames ← (List.range iterations).foldlM
    (fun frames i => do
      let output ← encoding_function i overlayed_image overlaying_image
      pure (frames ++ [FrameT.mk output 0 0 ms 1]))
    ([] : List FrameT)
  let encoding_bytes ← encodeFrames frames
  pure { encoding_bytes := encoding_bytes }

/-- A 1×1 opaque base buffer (counterexample fixture). -/
def cxBase : Img := ⟨1, 1, fun _ _ => ⟨0, 0, 0, 255⟩⟩

/-- A 1×1 fully transparent overlay buffer (counterexample fixture). -/
def cxOverlay : Img := ⟨1, 1, fun _ _ => ⟨0, 0, 0, 0⟩⟩

/-- A 2×2 base buffer (witness fixture). -/
def wBase : Img := ⟨2, 2, fun _ _ => ⟨10, 20, 30, 40⟩⟩

/-- A 1×1 overlay buffer with alpha 200 (witness fixture). -/
def wOv : Img := ⟨1, 1, fun _ _ => ⟨1, 2, 3, 200⟩⟩

/-- A 1×1 buffer (witness fixture). -/
def wOne : Img := ⟨1, 1, fun _ _ => ⟨9, 9, 9, 9⟩⟩

/-- A `2^20 × 2^20` constant buffer: large enough that the squared centered
differences of `round_image` wrap modulo `2 ^ 32`. -/
def bigImg : Img := ⟨1048576, 1048576, fun _ _ => ⟨1, 2, 3, 4⟩⟩

/-- A 50×50 buffer whose sample at `(u, v)` records its own coordinates. -/
def img50 : Img := ⟨50, 50, fun u v => ⟨u, v, 0, 255⟩⟩

/-- A 10×10 opaque buffer. -/
def img10 : Img := ⟨10, 10, fun _ _ => ⟨0, 0, 0, 255⟩⟩

/-- A 1×100 opaque buffer. -/
def imgTall : Img := ⟨1, 100, fun _ _ => ⟨7, 7, 7, 255⟩⟩

/-- A `2^31 × 1` buffer: its width does not fit in `i32`, so the anti-alias
pass of `rotate` panics at `width.try_into::<i32>().unwrap()`. -/
def hugeImg : Img := ⟨2147483648, 1, fun _ _ => ⟨0, 0, 0, 0⟩⟩

theorem putPixel_pix (img : Img) (x y : Nat) (p : Rgba) (u v : Nat) :
    (putPixel img x y p).pix u v = if u = x ∧ v = y then p else img.pix u v := rfl

@[simp] theorem putPixel_width (img : Img) (x y : Nat) (p : Rgba) :
    (putPixel img x y p).width = img.width := rfl

@[simp] theorem putPixel_height (img : Img) (x y : Nat) (p : Rgba) :
    (putPixel img x y p).height = img.height := rfl

/-- Dimensions are invariant under a fold whose step preserves them. -/
theorem foldl_width (f : Img → Nat → Img) (hw : ∀ s i, (f s i).width = s.width)
    (l : List Nat) (s : Img) : (l.foldl f s).width = s.width := by
  induction l generalizing s with
  | nil => rfl
  | cons i t ih => simpa [List.foldl_cons, hw] using (ih (f s i)).trans (hw s i)

theorem foldl_height (f : Img → Nat → Img) (hh : ∀ s i, (f s i).height = s.height)
    (l : List Nat) (s : Img) : (l.foldl f s).height = s.height := by
  induction l generalizing s with
  | nil => rfl
  | cons i t ih => simpa [List.foldl_cons, hh] using (ih (f s i)).trans (hh s i)

/-- Unfolding a fold over `List.range (n + 1)`: process `0, …, n-1`, then `n`. -/
theorem foldl_range_succ {β : Type _} (f : β → Nat → β) (b : β) (n : Nat) :
    (List.range (n + 1)).foldl f b = f ((List.range n).foldl f b) n := by
  rw [List.range_succ, List.foldl_append, List.foldl_cons, List.foldl_nil]

theorem add32_eq (x y : Nat) (h : x + y < U32) : add32 x y = x + y :=
  Nat.mod_eq_of_lt h

theorem stampRowN_succ (ov : Img) (x y threshold k : Nat) (acc : Img) (n : Nat) :
    stampRowN ov x y threshold k acc (n + 1) =
      (fun a i =>
        let p := ov.pix i k
        if threshold < p.a then putPixel a (add32 i x) (add32 k y) p else a)
        (stampRowN ov x y threshold k acc n) n :=
  foldl_range_succ _ _ _

theorem stampRowN_pix (ov : Img) (x y threshold k : Nat) (acc : Img) (n : Nat)
    (u v : Nat) (hx : n + x ≤ U32) (hy : k + y < U32) :
    (stampRowN ov x y threshold k acc n).pix u v =
      if v = k + y ∧ x ≤ u ∧ u < x + n ∧ threshold < (ov.pix (u - x) k).a then
        ov.pix (u - x) k
      else acc.pix u v := by
  induction n with
  | zero =>
    rw [stampRowN, List.range_zero, List.foldl_nil, if_neg (by omega)]
  | succ m ih =>
    rw [stampRowN_succ]
    dsimp only
    rw [add32_eq m x (by omega), add32_eq k y (by omega)]
    by_cases hth : threshold < (ov.pix m k).a
    · rw [if_pos hth, putPixel_pix]
      by_cases huv : u = m + x ∧ v = k + y
      · have hu : u - x = m := by omega
        rw [if_pos huv, if_pos (show _ ∧ _ ∧ _ ∧ _ from
          ⟨huv.2, by omega, by omega, by rw [hu]; exact hth⟩), hu]
      · rw [if_neg huv, ih (by omega)]
        by_cases hc : v = k + y ∧ x ≤ u ∧ u < x + m ∧ threshold < (ov.pix (u - x) k).a
        · rw [if_pos hc, if_pos ⟨hc.1, hc.2.1, by omega, hc.2.2.2⟩]
        · rw [if_neg hc, if_neg (fun hc' => huv ⟨by omega, hc'.1⟩)]
    · rw [if_neg hth, ih (by omega)]
      by_cases hc : v = k + y ∧ x ≤ u ∧ u < x + m ∧ threshold < (ov.pix (u - x) k).a
      · rw [if_pos hc, if_pos ⟨hc.1, hc.2.1, by omega, hc.2.2.2⟩]
      · rw [if_neg hc]
        refine (if_neg (fun hc' => ?_)).symm
        have hu : u - x = m := by omega
        rw [hu] at hc'
        exact hth hc'.2.2.2

theorem stampOuterN_succ (ov : Img) (x y threshold : Nat) (acc : Img) (n : Nat) :
    stampOuterN ov x y threshold acc (n + 1) =
      stampRowN ov x y threshold n (stampOuterN ov x y threshold acc n) ov.width :=
  foldl_range_succ _ _ _

/-- What the whole stamping double loop does to an arbitrary sample:
sample `(u, v)` becomes overlay sample `(u - x, v - y)` exactly when `(u, v)`
lies in the footprint `[x, x + ov.width) × [y, y + n)` and that overlay sample
is opaque enough; every other sample is untouched. -/
theorem stampOuterN_pix (ov : Img) (x y threshold : Nat) (acc : Img) (n : Nat)
    (u v : Nat) (hx : ov.width + x ≤ U32) (hy : n + y ≤ U32) :
    (stampOuterN ov x y threshold acc n).pix u v =
      if x ≤ u ∧ u < x + ov.width ∧ y ≤ v ∧ v < y + n ∧
          threshold < (ov.pix (u - x) (v - y)).a then
        ov.pix (u - x) (v - y)
      else acc.pix u v := by
  induction n with
  | zero => rw [stampOuterN, List.range_zero, List.foldl_nil, if_neg (by omega)]
  | succ m ih =>
    rw [stampOuterN_succ, stampRowN_pix ov x y threshold m _ ov.width u v hx (by omega)]
    by_cases hc1 : v = m + y ∧ x ≤ u ∧ u < x + ov.width ∧
        threshold < (ov.pix (u - x) m).a
    · have hv : v - y = m := by omega
      rw [if_pos hc1, hv]
      have hcond : x ≤ u ∧ u < x + ov.width ∧ y ≤ v ∧ v < y + (m + 1) ∧
          threshold < (ov.pix (u - x) m).a :=
        ⟨hc1.2.1, hc1.2.2.1, by omega, by omega, hc1.2.2.2⟩
      rw [if_pos hcond]
    · rw [if_neg hc1, ih (by omega)]
      by_cases hc : x ≤ u ∧ u < x + ov.width ∧ y ≤ v ∧ v < y + m ∧
          threshold < (ov.pix (u - x) (v - y)).a
      · have hcond : x ≤ u ∧ u < x + ov.width ∧ y ≤ v ∧ v < y + (m + 1) ∧
            threshold < (ov.pix (u - x) (v - y)).a :=
          ⟨hc.1, hc.2.1, hc.2.2.1, by omega, hc.2.2.2.2⟩
        rw [if_pos hc, if_pos hcond]
      · rw [if_neg hc]
        refine (if_neg (fun hc' => ?_)).symm
        have hv : v - y = m := by omega
        rw [hv] at hc'
        exact hc1 ⟨by omega, hc'.1, hc'.2.1, hc'.2.2.2.2⟩

theorem blendRowN_succ (blendRgba : Rgba → Rgba → Rgba) (ov : Img)
    (x y threshold k : Nat) (acc : Img) (n : Nat) :
    blendRowN blendRgba ov x y threshold k acc (n + 1) =
      (fun a i =>
        let p := ov.pix i k
        if threshold < p.a then putPixel a (add32 i x) (add32 k y) p
        else
          let bg := a.pix (add32 i x) (add32 k y)
          putPixel a (add32 i x) (add32 k y) (blendRgba bg p))
        (blendRowN blendRgba ov x y threshold k acc n) n :=
  foldl_range_succ _ _ _

/-- What one row of the blending loop does to an arbitrary sample: inside the
row of the footprint, an opaque-enough overlay sample overwrites, any other
overlay sample is blended onto the sample the row started from; outside the
row everything is untouched. -/
theorem blendRowN_pix (blendRgba : Rgba → Rgba → Rgba) (ov : Img)
    (x y threshold k : Nat) (acc : Img) (n : Nat)
    (u v : Nat) (hx : n + x ≤ U32) (hy : k + y < U32) :
    (blendRowN blendRgba ov x y threshold k acc n).pix u v =
      if v = k + y ∧ x ≤ u ∧ u < x + n then
        (if threshold < (ov.pix (u - x) k).a then ov.pix (u - x) k
         else blendRgba (acc.pix u v) (ov.pix (u - x) k))
      else acc.pix u v := by
  induction n generalizing u v with
  | zero =>
    rw [blendRowN, List.range_zero, List.foldl_nil, if_neg (by omega)]
  | succ m ih =>
    rw [blendRowN_succ]
    dsimp only
    rw [add32_eq m x (by omega), add32_eq k y (by omega)]
    have hprev : (blendRowN blendRgba ov x y threshold k acc m).pix (m + x) (k + y) =
        acc.pix (m + x) (k + y) := by
      rw [ih (m + x) (k + y) (by omega), if_neg (by omega)]
    by_cases hth : threshold < (ov.pix m k).a
    · rw [if_pos hth, putPixel_pix]
      by_cases huv : u = m + x ∧ v = k + y
      · have hu : u - x = m := by omega
        have hcond : v = k + y ∧ x ≤ u ∧ u < x + (m + 1) := ⟨huv.2, by omega, by omega⟩
        rw [if_pos huv, if_pos hcond, hu, if_pos (hu ▸ hth)]
      · rw [if_neg huv, ih u v (by omega)]
        by_cases hc : v = k + y ∧ x ≤ u ∧ u < x + m
        · have hcond : v = k + y ∧ x ≤ u ∧ u < x + (m + 1) := ⟨hc.1, hc.2.1, by omega⟩
          rw [if_pos hc, if_pos hcond]
        · rw [if_neg hc, if_neg (fun hc' => hc ⟨hc'.1, hc'.2.1, by omega⟩)]
    · rw [if_neg hth, putPixel_pix]
      by_cases huv : u = m + x ∧ v = k + y
      · have hu : u - x = m := by omega
        have hcond : v = k + y ∧ x ≤ u ∧ u < x + (m + 1) := ⟨huv.2, by omega, by omega⟩
        rw [if_pos huv, hprev, if_pos hcond, hu, if_neg (hu ▸ hth), huv.1, huv.2]
      · rw [if_neg huv, ih u v (by omega)]
        by_cases hc : v = k + y ∧ x ≤ u ∧ u < x + m
        · have hcond : v = k + y ∧ x ≤ u ∧ u < x + (m + 1) := ⟨hc.1, hc.2.1, by omega⟩
          rw [if_pos hc, if_pos hcond]
        · rw [if_neg hc, if_neg (fun hc' => hc ⟨hc'.1, hc'.2.1, by omega⟩)]

theorem blendOuterN_succ (blendRgba : Rgba → Rgba → Rgba) (ov : Img)
    (x y threshold : Nat) (acc : Img) (n : Nat) :
    blendOuterN blendRgba ov x y threshold acc (n + 1) =
      blendRowN blendRgba ov x y threshold n
        (blendOuterN blendRgba ov x y threshold acc n) ov.width :=
  foldl_range_succ _ _ _

/-- What the whole blending double loop does to an arbitrary sample. -/
theorem blendOuterN_pix (blendRgba : Rgba → Rgba → Rgba) (ov : Img)
    (x y threshold : Nat) (acc : Img) (n : Nat)
    (u v : Nat) (hx : ov.width + x ≤ U32) (hy : n + y ≤ U32) :
    (blendOuterN blendRgba ov x y threshold acc n).pix u v =
      if x ≤ u ∧ u < x + ov.width ∧ y ≤ v ∧ v < y + n then
        (if threshold < (ov.pix (u - x) (v - y)).a then ov.pix (u - x) (v - y)
         else blendRgba (acc.pix u v) (ov.pix (u - x) (v - y)))
      else acc.pix u v := by
  induction n with
  | zero => rw [blendOuterN, List.range_zero, List.foldl_nil, if_neg (by omega)]
  | succ m ih =>
    rw [blendOuterN_succ,
      blendRowN_pix blendRgba ov x y threshold m _ ov.width u v hx (by omega)]
    by_cases hc1 : v = m + y ∧ x ≤ u ∧ u < x + ov.width
    · have hv : v - y = m := by omega
      have hne : ¬(x ≤ u ∧ u < x + ov.width ∧ y ≤ v ∧ v < y + m) := by omega
      rw [if_pos hc1, hv, ih (by omega), if_neg hne]
      have hcond : x ≤ u ∧ u < x + ov.width ∧ y ≤ v ∧ v < y + (m + 1) :=
        ⟨hc1.2.1, hc1.2.2, by omega, by omega⟩
      rw [if_pos hcond]
    · rw [if_neg hc1, ih (by omega)]
      by_cases hc : x ≤ u ∧ u < x + ov.width ∧ y ≤ v ∧ v < y + m
      · have hcond : x ≤ u ∧ u < x + ov.width ∧ y ≤ v ∧ v < y + (m + 1) :=
          ⟨hc.1, hc.2.1, hc.2.2.1, by omega⟩
        rw [if_pos hc, if_pos hcond]
      · rw [if_neg hc]
        refine (if_neg (fun hc' => ?_)).symm
        exact hc1 ⟨by omega, hc'.1, hc'.2.1⟩

/-- The compositor returns `DimensionMismatch` exactly when its (wrapping)
bounds check fires. -/
theorem copy_within_error_iff (base ov : Img) (x y threshold : Nat) :
    copy_within_alpha_threshold base ov x y threshold =
        Except.error ImgError.dimensionMismatch ↔
      (base.width < add32 ov.width x ∨ base.height < add32 ov.height y) := by
  rw [copy_within_alpha_threshold]
  split
  next h => exact iff_of_true rfl h
  next h => exact iff_of_false (fun hE => Except.noConfusion hE) h

theorem copy_with_blend_error_iff (blendRgba : Rgba → Rgba → Rgba) (base ov : Img)
    (x y threshold : Nat) :
    copy_with_blend blendRgba base ov x y threshold =
        Except.error ImgError.dimensionMismatch ↔
      (base.width < add32 ov.width x ∨ base.height < add32 ov.height y) := by
  rw [copy_with_blend]
  split
  next h => exact iff_of_true rfl h
  next h => exact iff_of_false (fun hE => Except.noConfusion hE) h

theorem copy_within_ok_eq (base ov : Img) (x y threshold : Nat)
    (h : ¬(base.width < add32 ov.width x ∨ base.height < add32 ov.height y)) :
    copy_within_alpha_threshold base ov x y threshold =
      Except.ok (stampOuterN ov x y threshold base ov.height) := by
  rw [copy_within_alpha_threshold, if_neg h]

theorem copy_with_blend_ok_eq (blendRgba : Rgba → Rgba → Rgba) (base ov : Img)
    (x y threshold : Nat)
    (h : ¬(base.width < add32 ov.width x ∨ base.height < add32 ov.height y)) :
    copy_with_blend blendRgba base ov x y threshold =
      Except.ok (blendOuterN blendRgba ov x y threshold base ov.height) := by
  rw [copy_with_blend, if_neg h]

/-- C1, counterexample to the claim as stated: at `x = 2^32 - 1` with 1×1
buffers, the release build's `u32` addition `other.width() + x` wraps to `0`
in the bounds check, so `copy_within_alpha_threshold` does **not** return
`DimensionError` although the overlay's footprint (as mathematical integers)
exceeds the base's bounds; with a fully transparent overlay the loop then
performs no write at all and the call returns `Ok`. -/
theorem C1_counterexample :
    copy_within_alpha_threshold cxBase cxOverlay 4294967295 0 0 ≠
      Except.error ImgError.dimensionMismatch ∧
    4294967295 + cxOverlay.width > cxBase.width := by
  constructor
  · rw [ne_eq, copy_within_error_iff]
    decide
  · decide

/-- C1 (amended): provided the `u32` additions `overlay.width + x` and
`overlay.height + y` do not overflow, both `copy_within_alpha_threshold` and
`copy_with_blend` return `DimensionError` iff `x + overlay.width > base.width`
or `y + overlay.height > base.height` (as mathematical integers), and on
success neither function writes any sample outside the base's bounds. -/
theorem C1_composite_dimension_error (base ov : Img) (x y threshold : Nat)
    (hx : ov.width + x < U32) (hy : ov.height + y < U32) :
    ((copy_within_alpha_threshold base ov x y threshold =
        Except.error ImgError.dimensionMismatch) ↔
      (x + ov.width > base.width ∨ y + ov.height > base.height)) ∧
    (∀ blendRgba, (copy_with_blend blendRgba base ov x y threshold =
        Except.error ImgError.dimensionMismatch) ↔
      (x + ov.width > base.width ∨ y + ov.height > base.height)) ∧
    (∀ r, copy_within_alpha_threshold base ov x y threshold = Except.ok r →
      ∀ u v, base.width ≤ u ∨ base.height ≤ v → r.pix u v = base.pix u v) ∧
    (∀ blendRgba r, copy_with_blend blendRgba base ov x y threshold = Except.ok r →
      ∀ u v, base.width ≤ u ∨ base.height ≤ v → r.pix u v = base.pix u v) := by
  have hax : add32 ov.width x = ov.width + x := add32_eq _ _ hx
  have hay : add32 ov.height y = ov.height + y := add32_eq _ _ hy
  refine ⟨?_, fun blendRgba => ?_, ?_, fun blendRgba => ?_⟩
  · rw [copy_within_error_iff, hax, hay]
    omega
  · rw [copy_with_blend_error_iff, hax, hay]
    omega
  · intro r hr u v huv
    have hnc : ¬(base.width < add32 ov.width x ∨ base.height < add32 ov.height y) := by
      intro hc
      rw [copy_within_alpha_threshold, if_pos hc] at hr
      exact Except.noConfusion hr
    rw [copy_within_ok_eq base ov x y threshold hnc] at hr
    injection hr with hreq
    subst hreq
    rw [hax, hay] at hnc
    rw [stampOuterN_pix ov x y threshold base ov.height u v (by omega) (by omega),
      if_neg (by omega)]
  · intro r hr u v huv
    have hnc : ¬(base.width < add32 ov.width x ∨ base.height < add32 ov.height y) := by
      intro hc
      rw [copy_with_blend, if_pos hc] at hr
      exact Except.noConfusion hr
    rw [copy_with_blend_ok_eq blendRgba base ov x y threshold hnc] at hr
    injection hr with hreq
    subst hreq
    rw [hax, hay] at hnc
    rw [blendOuterN_pix blendRgba ov x y threshold base ov.height u v
      (by omega) (by omega), if_neg (by omega)]

/-- C1 witness: the amended theorem applied to a 2×2 base and a 1×1 overlay
placed at `(1, 1)` with threshold 128, where the hypotheses hold and the
bounds check does not fire. -/
theorem C1_witness :
    (wOv.width + 1 < U32 ∧ wOv.height + 1 < U32) ∧
    ((copy_within_alpha_threshold wBase wOv 1 1 128 =
        Except.error ImgError.dimensionMismatch) ↔
      (1 + wOv.width > wBase.width ∨ 1 + wOv.height > wBase.height)) :=
  ⟨by decide, (C1_composite_dimension_error wBase wOv 1 1 128
    (by decide) (by decide)).1⟩

/-- C6: in Stamp mode, when the overlay fits at `(x, y)` (and the base's
dimensions are `u32` values), every overlay sample with alpha strictly above
the threshold overwrites the base sample at `(x + i, y + k)` — all four
channels, alpha included — and every overlay sample at or below the threshold
leaves the base sample completely untouched. -/
theorem C6_stamp_pixel_semantics (base ov : Img) (x y threshold : Nat)
    (hbw : base.width < U32) (hbh : base.height < U32)
    (hfx : x + ov.width ≤ base.width) (hfy : y + ov.height ≤ base.height) :
    ∃ r, copy_within_alpha_threshold base ov x y threshold = Except.ok r ∧
      ∀ i k, i < ov.width → k < ov.height →
        (threshold < (ov.pix i k).a → r.pix (x + i) (y + k) = ov.pix i k) ∧
        (¬threshold < (ov.pix i k).a →
          r.pix (x + i) (y + k) = base.pix (x + i) (y + k)) := by
  have hnc : ¬(base.width < add32 ov.width x ∨ base.height < add32 ov.height y) := by
    rw [add32_eq _ _ (by omega), add32_eq _ _ (by omega)]
    omega
  refine ⟨_, copy_within_ok_eq base ov x y threshold hnc, ?_⟩
  intro i k hi hk
  have hpix := stampOuterN_pix ov x y threshold base ov.height (x + i) (y + k)
    (by omega) (by omega)
  have hdi : x + i - x = i := by omega
  have hdk : y + k - y = k := by omega
  rw [hdi, hdk] at hpix
  constructor
  · intro hth
    rw [hpix, if_pos ⟨by omega, by omega, by omega, by omega, hth⟩]
  · intro hth
    rw [hpix, if_neg (fun hc => hth hc.2.2.2.2)]

/-- C6 witness: the theorem applied to the 2×2 base and the 1×1 overlay of
alpha 200 placed at `(1, 1)` with threshold 128. -/
theorem C6_witness :
    (wBase.width < U32 ∧ wBase.height < U32 ∧ 1 + wOv.width ≤ wBase.width ∧
      1 + wOv.height ≤ wBase.height) ∧
    (∃ r, copy_within_alpha_threshold wBase wOv 1 1 128 = Except.ok r ∧
      ∀ i k, i < wOv.width → k < wOv.height →
        (128 < (wOv.pix i k).a → r.pix (1 + i) (1 + k) = wOv.pix i k) ∧
        (¬128 < (wOv.pix i k).a →
          r.pix (1 + i) (1 + k) = wBase.pix (1 + i) (1 + k))) :=
  ⟨by decide, C6_stamp_pixel_semantics wBase wOv 1 1 128
    (by decide) (by decide) (by decide) (by decide)⟩

/-- C7: in Stamp mode, when the overlay fits at `(x, y)`, every destination
sample outside the footprint `[x, x + ov.width) × [y, y + ov.height)` is left
unchanged. -/
theorem C7_stamp_outside_footprint (base ov : Img) (x y threshold : Nat)
    (hbw : base.width < U32) (hbh : base.height < U32)
    (hfx : x + ov.width ≤ base.width) (hfy : y + ov.height ≤ base.height) :
    ∃ r, copy_within_alpha_threshold base ov x y threshold = Except.ok r ∧
      ∀ u v, ¬(x ≤ u ∧ u < x + ov.width ∧ y ≤ v ∧ v < y + ov.height) →
        r.pix u v = base.pix u v := by
  have hnc : ¬(base.width < add32 ov.width x ∨ base.height < add32 ov.height y) := by
    rw [add32_eq _ _ (by omega), add32_eq _ _ (by omega)]
    omega
  refine ⟨_, copy_within_ok_eq base ov x y threshold hnc, ?_⟩
  intro u v hout
  rw [stampOuterN_pix ov x y threshold base ov.height u v (by omega) (by omega),
    if_neg (fun hc => hout ⟨hc.1, hc.2.1, hc.2.2.1, hc.2.2.2.1⟩)]

/-- C7 witness: the theorem applied to the 2×2 base and the 1×1 overlay at
`(1, 1)` with threshold 128. -/
theorem C7_witness :
    (wBase.width < U32 ∧ wBase.height < U32 ∧ 1 + wOv.width ≤ wBase.width ∧
      1 + wOv.height ≤ wBase.height) ∧
    (∃ r, copy_within_alpha_threshold wBase wOv 1 1 128 = Except.ok r ∧
      ∀ u v, ¬(1 ≤ u ∧ u < 1 + wOv.width ∧ 1 ≤ v ∧ v < 1 + wOv.height) →
        r.pix u v = wBase.pix u v) :=
  ⟨by decide, C7_stamp_outside_footprint wBase wOv 1 1 128
    (by decide) (by decide) (by decide) (by decide)⟩

theorem roundInner_succ (img0 : Img) (rsq w xsq : Nat) (acc : Img) (n : Nat) :
    roundInner img0 rsq w xsq acc (n + 1) =
      (fun a h =>
        let y := sq32 (sub32 h (img0.height / 2))
        if rsq < add32 xsq y then putPixel a w h CLEARPIXEL else a)
        (roundInner img0 rsq w xsq acc n) n :=
  foldl_range_succ _ _ _

/-- What one column of `round_image` does to an arbitrary sample. -/
theorem roundInner_pix (img0 : Img) (rsq w xsq : Nat) (acc : Img) (n : Nat)
    (u v : Nat) :
    (roundInner img0 rsq w xsq acc n).pix u v =
      if u = w ∧ v < n ∧ rsq < add32 xsq (sq32 (sub32 v (img0.height / 2))) then
        CLEARPIXEL
      else acc.pix u v := by
  induction n with
  | zero => rw [roundInner, List.range_zero, List.foldl_nil, if_neg (by omega)]
  | succ m ih =>
    rw [roundInner_succ]
    dsimp only
    by_cases hcnd : rsq < add32 xsq (sq32 (sub32 m (img0.height / 2)))
    · rw [if_pos hcnd, putPixel_pix]
      by_cases huv : u = w ∧ v = m
      · have hcond : u = w ∧ v < m + 1 ∧
            rsq < add32 xsq (sq32 (sub32 v (img0.height / 2))) :=
          ⟨huv.1, by omega, huv.2.symm ▸ hcnd⟩
        rw [if_pos huv, if_pos hcond]
      · rw [if_neg huv, ih]
        by_cases hc : u = w ∧ v < m ∧
            rsq < add32 xsq (sq32 (sub32 v (img0.height / 2)))
        · have hcond : u = w ∧ v < m + 1 ∧
              rsq < add32 xsq (sq32 (sub32 v (img0.height / 2))) :=
            ⟨hc.1, by omega, hc.2.2⟩
          rw [if_pos hc, if_pos hcond]
        · rw [if_neg hc]
          refine (if_neg (fun hc' => ?_)).symm
          exact huv ⟨hc'.1, by omega⟩
    · rw [if_neg hcnd, ih]
      by_cases hc : u = w ∧ v < m ∧
          rsq < add32 xsq (sq32 (sub32 v (img0.height / 2)))
      · have hcond : u = w ∧ v < m + 1 ∧
            rsq < add32 xsq (sq32 (sub32 v (img0.height / 2))) :=
          ⟨hc.1, by omega, hc.2.2⟩
        rw [if_pos hc, if_pos hcond]
      · rw [if_neg hc]
        refine (if_neg (fun hc' => ?_)).symm
        have hv : v = m := by omega
        rw [hv] at hc'
        exact hcnd hc'.2.2

theorem roundInner_width (img0 : Img) (rsq w xsq : Nat) (acc : Img) (n : Nat) :
    (roundInner img0 rsq w xsq acc n).width = acc.width := by
  refine foldl_width _ (fun s i => ?_) _ _
  dsimp only
  split <;> rfl

theorem roundInner_height (img0 : Img) (rsq w xsq : Nat) (acc : Img) (n : Nat) :
    (roundInner img0 rsq w xsq acc n).height = acc.height := by
  refine foldl_height _ (fun s i => ?_) _ _
  dsimp only
  split <;> rfl

theorem roundOuter_succ (img0 : Img) (rsq : Nat) (acc : Img) (n : Nat) :
    roundOuter img0 rsq acc (n + 1) =
      (fun a w =>
        let x := sq32 (sub32 w (img0.width / 2))
        roundInner img0 rsq w x a img0.height)
        (roundOuter img0 rsq acc n) n :=
  foldl_range_succ _ _ _

/-- What the whole double loop of `round_image` does to an arbitrary sample. -/
theorem roundOuter_pix (img0 : Img) (rsq : Nat) (acc : Img) (n : Nat) (u v : Nat) :
    (roundOuter img0 rsq acc n).pix u v =
      if u < n ∧ v < img0.height ∧
          rsq < add32 (sq32 (sub32 u (img0.width / 2)))
            (sq32 (sub32 v (img0.height / 2))) then
        CLEARPIXEL
      else acc.pix u v := by
  induction n with
  | zero => rw [roundOuter, List.range_zero, List.foldl_nil, if_neg (by omega)]
  | succ m ih =>
    rw [roundOuter_succ]
    dsimp only
    rw [roundInner_pix, ih]
    by_cases hc1 : u = m ∧ v < img0.height ∧
        rsq < add32 (sq32 (sub32 m (img0.width / 2)))
          (sq32 (sub32 v (img0.height / 2)))
    · have hcond : u < m + 1 ∧ v < img0.height ∧
          rsq < add32 (sq32 (sub32 u (img0.width / 2)))
            (sq32 (sub32 v (img0.height / 2))) :=
        ⟨by omega, hc1.2.1, hc1.1.symm ▸ hc1.2.2⟩
      rw [if_pos hc1, if_pos hcond]
    · rw [if_neg hc1]
      by_cases hc : u < m ∧ v < img0.height ∧
          rsq < add32 (sq32 (sub32 u (img0.width / 2)))
            (sq32 (sub32 v (img0.height / 2)))
      · have hcond : u < m + 1 ∧ v < img0.height ∧
            rsq < add32 (sq32 (sub32 u (img0.width / 2)))
              (sq32 (sub32 v (img0.height / 2))) :=
          ⟨by omega, hc.2.1, hc.2.2⟩
        rw [if_pos hc, if_pos hcond]
      · rw [if_neg hc]
        refine (if_neg (fun hc' => ?_)).symm
        have hu : u = m := by omega
        rw [hu] at hc'
        exact hc1 ⟨hu, hc'.2.1, hc'.2.2⟩

theorem roundOuter_width (img0 : Img) (rsq : Nat) (acc : Img) (n : Nat) :
    (roundOuter img0 rsq acc n).width = acc.width := by
  refine foldl_width _ (fun s i => ?_) _ _
  exact roundInner_width img0 rsq i _ s img0.height

theorem roundOuter_height (img0 : Img) (rsq : Nat) (acc : Img) (n : Nat) :
    (roundOuter img0 rsq acc n).height = acc.height := by
  refine foldl_height _ (fun s i => ?_) _ _
  exact roundInner_height img0 rsq i _ s img0.height

/-- `round_image` preserves the buffer's width. -/
theorem round_image_width (img : Img) : (round_image img).width = img.width := by
  simp only [round_image]
  exact roundOuter_width img _ img img.width

/-- `round_image` preserves the buffer's height. -/
theorem round_image_height (img : Img) : (round_image img).height = img.height := by
  simp only [round_image]
  exact roundOuter_height img _ img img.width

/-- The pointwise description of `round_image`: sample `(u, v)` is cleared
exactly when it is in range and the wrapped clearing condition holds;
otherwise it is untouched. -/
theorem round_image_pix (img : Img) (u v : Nat) :
    (round_image img).pix u v =
      if u < img.width ∧ v < img.height ∧ roundCond img u v then CLEARPIXEL
      else img.pix u v := by
  simp only [round_image]
  rw [roundOuter_pix]
  rfl

/-- C8: `round_image` is idempotent — masking a buffer twice yields exactly
the buffer obtained by masking it once.  (The clearing condition depends only
on the coordinates and the dimensions, which `round_image` preserves, so the
second pass clears samples that are already `CLEARPIXEL` and leaves every
other sample untouched.) -/
theorem C8_round_image_idempotent (img : Img) :
    round_image (round_image img) = round_image img := by
  have hw : (round_image img).width = img.width := round_image_width img
  have hh : (round_image img).height = img.height := round_image_height img
  have hcond : roundCond (round_image img) = roundCond img := by
    funext u v
    rw [roundCond, roundCond, hw, hh]
  refine Img.ext (round_image_width (round_image img)) ?_ ?_
  · exact round_image_height (round_image img)
  · funext u v
    simp only [round_image_pix, hw, hh, hcond]
    by_cases hC : u < img.width ∧ v < img.height ∧ roundCond img u v
    · rw [if_pos hC, if_pos hC]
    · rw [if_neg hC]

/-- C2: the claim describes the clearing condition with *signed* exact
arithmetic, and the specification calls the signed intermediate a correctness
requirement; the code instead computes `w - width / 2` in `u32` (the in-code
comment even records the resulting overflow panic of debug builds).  In the
release build's wrapping arithmetic, on a `2^20 × 2^20` buffer every square
involved wraps to `0`, so the corner sample `(0, 0)` is left untouched even
though the claim's signed condition mandates clearing it (as the spec-modelled
`round_image_signed` does). -/
theorem C2_round_image_unsigned_arithmetic_bug :
    (round_image bigImg).pix 0 0 = ⟨1, 2, 3, 4⟩ ∧
    (round_image_signed bigImg).pix 0 0 = CLEARPIXEL ∧
    ((min bigImg.width bigImg.height / 2 : Nat) : Int) ^ 2 <
      ((0 : Int) - ((bigImg.width / 2 : Nat) : Int)) ^ 2 +
        ((0 : Int) - ((bigImg.height / 2 : Nat) : Int)) ^ 2 := by
  refine ⟨?_, ?_, ?_⟩
  · rw [round_image_pix, if_neg (by decide)]
    rfl
  · decide
  · decide

/-- C3: evaluating the code at an image that lies entirely before the canvas
origin.  For a 1×100 image placed at `(0, -200)` on a 250×250 canvas, the
y-axis takes the negative-placement branch with `height_total = -100`, and
`height_total.try_into::<u32>().unwrap()` panics — the function does not
return a zero-size result, contradicting the claim that it never fails or
panics for finite inputs. -/
theorem C3_out_of_bounds_crop_panics :
    out_of_bounds_crop imgTall 0 (-200) 250 250 = Except.error CropPanic.panic := by
  rfl

/-- C4: evaluating the code at the claim's own scenario — a 50×50 image at
placement `(-10, 5)` with max 40×40.  The negative-x branch passes `-x_pos`
as the **y** offset of `crop` (and `width_total` as the crop width), so the
result is a 40×25 image whose sample `(0, 0)` comes from the original
`(0, 10)` (ten rows cut off the top and ten columns off the **right**), not
the 40×35 image with the left edge cropped that the claim demands. -/
theorem C4_negative_x_crops_wrong_axis :
    (out_of_bounds_crop img50 (-10) 5 40 40).map
        (fun o => (o.image.width, o.image.height, o.x_pos, o.y_pos)) =
      Except.ok (40, 25, 0, 5) ∧
    (out_of_bounds_crop img50 (-10) 5 40 40).map (fun o => o.image.pix 0 0) =
      Except.ok ⟨0, 10, 0, 255⟩ :=
  ⟨rfl, rfl⟩

/-- C5: evaluating the code at a placement entirely past the far edge.  For a
10×10 image at `(0, 100)` with max 40×40, the trailing-edge branch computes
`10 - 70` in `u32`, which wraps; the crate's `crop` clamps the huge height
back to 10, and the function returns `adjusted_y = 100` with a height of 10,
so `adjusted_y + result.height = 110 > 40`, contradicting the claim. -/
theorem C5_output_exceeds_bounds :
    (out_of_bounds_crop img10 0 100 40 40).map
        (fun o => (o.image.height, o.y_pos)) = Except.ok (10, 100) ∧
    ¬(100 + 10 ≤ 40) :=
  ⟨rfl, by decide⟩

theorem rotPass1Inner_width (self : Img) (rotMap : Nat → Nat → Nat × Nat)
    (x : Nat) (acc : Img) (n : Nat) :
    (rotPass1Inner self rotMap x acc n).width = acc.width := by
  refine foldl_width _ (fun s i => ?_) _ _
  rfl

theorem rotPass1Inner_height (self : Img) (rotMap : Nat → Nat → Nat × Nat)
    (x : Nat) (acc : Img) (n : Nat) :
    (rotPass1Inner self rotMap x acc n).height = acc.height := by
  refine foldl_height _ (fun s i => ?_) _ _
  rfl

theorem rotPass1Outer_width (self : Img) (rotMap : Nat → Nat → Nat × Nat)
    (acc : Img) (n : Nat) :
    (rotPass1Outer self rotMap acc n).width = acc.width :=
  foldl_width _ (fun s i => rotPass1Inner_width self rotMap i s self.height) _ _

theorem rotPass1Outer_height (self : Img) (rotMap : Nat → Nat → Nat × Nat)
    (acc : Img) (n : Nat) :
    (rotPass1Outer self rotMap acc n).height = acc.height :=
  foldl_height _ (fun s i => rotPass1Inner_height self rotMap i s self.height) _ _

@[simp] theorem except_ok_bind {ε α β : Type _} (a : α) (f : α → Except ε β) :
    (Except.ok a : Except ε α) >>= f = f a := rfl

@[simp] theorem except_error_bind {ε α β : Type _} (e : ε) (f : α → Except ε β) :
    (Except.error e : Except ε α) >>= f = (Except.error e : Except ε β) := rfl

@[simp] theorem except_pure_eq_ok {ε α : Type _} (a : α) :
    (pure a : Except ε α) = Except.ok a := rfl

@[simp] theorem except_bind_ok_right {ε α : Type _} (x : Except ε α) :
    x >>= Except.ok = x := by
  cases x <;> rfl

/-- Unfolding a monadic fold over `List.range (n + 1)`:
process `0, …, n-1`, then `n`. -/
theorem foldlM_range_succ {ε β : Type _} (f : β → Nat → Except ε β) (b : β)
    (n : Nat) :
    (List.range (n + 1)).foldlM f b =
      (List.range n).foldlM f b >>= (fun s => f s n) := by
  rw [List.range_succ, List.foldlM_append]
  simp

/-- A monadic fold whose every step succeeds succeeds. -/
theorem exceptFoldlM_ok {ε α β : Type _} (f : β → α → Except ε β) (l : List α)
    (h : ∀ s a, ∃ t, f s a = Except.ok t) :
    ∀ init, ∃ out, l.foldlM f init = Except.ok out := by
  induction l with
  | nil => exact fun init => ⟨init, rfl⟩
  | cons a t ih =>
    intro init
    obtain ⟨s1, hs1⟩ := h init a
    obtain ⟨out, hout⟩ := ih s1
    exact ⟨out, by rw [List.foldlM_cons, hs1]; simpa using hout⟩

/-- When both dimensions fit in `i32`, the conversions inside the neighbor
in-range check succeed and `rotNeighbors` raises no panic. -/
theorem rotNeighbors_ok (img : Img) (width height x y : Nat)
    (hW : width < 2147483648) (hH : height < 2147483648) :
    ∃ l, rotNeighbors img width height x y = Except.ok l := by
  have hiw : i32FromU32 width = Except.ok (width : Int) := by
    rw [i32FromU32, if_pos (by omega)]
  have hih : i32FromU32 height = Except.ok (height : Int) := by
    rw [i32FromU32, if_pos (by omega)]
  rw [rotNeighbors]
  refine exceptFoldlM_ok _ _ (fun l i => ?_) []
  refine exceptFoldlM_ok _ _ (fun l2 j => ?_) l
  dsimp only
  by_cases h1 : (0 : Int) ≤ wrapI32 (wrapI32 (x : Int) + (i : Int) - 1)
  · rw [if_pos h1, hiw, except_ok_bind]
    split
    · by_cases h2 : (0 : Int) ≤ wrapI32 (wrapI32 (y : Int) + (j : Int) - 1)
      · rw [if_pos h2, hih, except_ok_bind]
        split
        · exact ⟨_, rfl⟩
        · exact ⟨_, rfl⟩
      · rw [if_neg h2]
        exact ⟨_, rfl⟩
    · exact ⟨_, rfl⟩
  · rw [if_neg h1]
    exact ⟨_, rfl⟩

theorem rotPass2Inner_succ (boxAvg : List Rgba → Nat × Nat × Nat)
    (width height x : Nat) (acc : Img) (n : Nat) :
    rotPass2Inner boxAvg width height x acc (n + 1) =
      rotPass2Inner boxAvg width height x acc n >>= (fun a => do
        let nbrs ← rotNeighbors a width height x n
        let rgb := boxAvg nbrs
        pure (putPixel a x n ⟨rgb.1, rgb.2.1, rgb.2.2, 255⟩)) :=
  foldlM_range_succ _ _ _

/-- When both dimensions fit in `i32`, one column of the anti-aliasing pass
returns normally, preserves the dimensions, leaves samples outside its column
untouched and writes every sample of the column with alpha `255`. -/
theorem rotPass2Inner_ok (boxAvg : List Rgba → Nat × Nat × Nat)
    (width height x : Nat) (acc : Img) (n : Nat)
    (hW : width < 2147483648) (hH : height < 2147483648) :
    ∃ r, rotPass2Inner boxAvg width height x acc n = Except.ok r ∧
      r.width = acc.width ∧ r.height = acc.height ∧
      (∀ u v, ¬(u = x ∧ v < n) → r.pix u v = acc.pix u v) ∧
      (∀ u v, u = x → v < n → (r.pix u v).a = 255) := by
  induction n with
  | zero =>
    exact ⟨acc, rfl, rfl, rfl, fun u v _ => rfl,
      fun u v _ hv => absurd hv (Nat.not_lt_zero v)⟩
  | succ m ih =>
    obtain ⟨r, hr, hrw, hrh, hout, halpha⟩ := ih
    obtain ⟨nb, hnb⟩ := rotNeighbors_ok r width height x m hW hH
    refine ⟨putPixel r x m ⟨(boxAvg nb).1, (boxAvg nb).2.1, (boxAvg nb).2.2, 255⟩,
      ?_, hrw, hrh, ?_, ?_⟩
    · rw [rotPass2Inner_succ, hr, except_ok_bind]
      dsimp only
      rw [hnb, except_ok_bind]
      rfl
    · intro u v hne
      rw [putPixel_pix, if_neg (fun h => hne ⟨h.1, by omega⟩)]
      exact hout u v (fun h => hne ⟨h.1, by omega⟩)
    · intro u v hu hv
      rw [putPixel_pix]
      by_cases hm : v = m
      · rw [if_pos ⟨hu, hm⟩]
      · rw [if_neg (fun h => hm h.2)]
        exact halpha u v hu (by omega)

theorem rotPass2Outer_succ (boxAvg : List Rgba → Nat × Nat × Nat)
    (width height : Nat) (acc : Img) (n : Nat) :
    rotPass2Outer boxAvg width height acc (n + 1) =
      rotPass2Outer boxAvg width height acc n >>=
        (fun a => rotPass2Inner boxAvg width height n a height) :=
  foldlM_range_succ _ _ _

/-- When both dimensions fit in `i32`, the whole anti-aliasing pass returns
normally, preserves the dimensions and writes every in-range sample with
alpha `255`. -/
theorem rotPass2Outer_ok (boxAvg : List Rgba → Nat × Nat × Nat)
    (width height : Nat) (acc : Img) (n : Nat)
    (hW : width < 2147483648) (hH : height < 2147483648) :
    ∃ r, rotPass2Outer boxAvg width height acc n = Except.ok r ∧
      r.width = acc.width ∧ r.height = acc.height ∧
      (∀ u v, u < n → v < height → (r.pix u v).a = 255) := by
  induction n with
  | zero => exact ⟨acc, rfl, rfl, rfl, fun u v hu _ => absurd hu (Nat.not_lt_zero u)⟩
  | succ m ih =>
    obtain ⟨r, hr, hrw, hrh, halpha⟩ := ih
    obtain ⟨r2, hr2, hr2w, hr2h, hout2, halpha2⟩ :=
      rotPass2Inner_ok boxAvg width height m r height hW hH
    refine ⟨r2, ?_, hr2w.trans hrw, hr2h.trans hrh, ?_⟩
    · rw [rotPass2Outer_succ, hr, except_ok_bind, hr2]
    · intro u v hu hv
      by_cases hm : u = m
      · exact halpha2 u v hm hv
      · rw [hout2 u v (fun h => hm h.1)]
        exact halpha u v (by omega) hv

/-- At `(0, 0)` with a width of at least `2^31`, the neighbor check reaches
`width.try_into::<i32>().unwrap()` (the candidate `x_new = 0` passes
`x_new >= 0` at `i = 1`) and panics. -/
theorem rotNeighbors_width_panic (img : Img) (width height : Nat)
    (hW : 2147483648 ≤ width) :
    rotNeighbors img width height 0 0 = Except.error CropPanic.panic := by
  have hiw : i32FromU32 width = Except.error CropPanic.panic := by
    rw [i32FromU32, if_neg (by omega)]
  rw [rotNeighbors]
  simp only [hiw]
  rfl

/-- The first sample `(0, 0)` of the anti-aliasing pass already panics when
the width does not fit in `i32`. -/
theorem rotPass2Inner_width_panic (boxAvg : List Rgba → Nat × Nat × Nat)
    (width height : Nat) (acc : Img) (hW : 2147483648 ≤ width) :
    rotPass2Inner boxAvg width height 0 acc 1 = Except.error CropPanic.panic := by
  rw [rotPass2Inner, show List.range 1 = [0] from rfl, List.foldlM_cons]
  dsimp only
  rw [rotNeighbors_width_panic acc width height hW]
  rfl

theorem rotPass2Outer_width_panic (boxAvg : List Rgba → Nat × Nat × Nat)
    (width : Nat) (acc : Img) (m : Nat) (hW : 2147483648 ≤ width) :
    rotPass2Outer boxAvg width 1 acc (m + 1) = Except.error CropPanic.panic := by
  rw [rotPass2Outer, List.range_succ_eq_map, List.foldlM_cons]
  rw [rotPass2Inner_width_panic boxAvg width 1 acc hW]
  rfl

/-- C9, counterexample to the claim as stated: on the `2^31 × 1` buffer the
anti-aliasing pass evaluates `width.try_into::<i32>().unwrap()` inside its
in-range check and panics (in every build profile), so `rotate` does **not**
return a buffer at all — against the claim that it returns a same-sized
buffer with alpha `255` for every input buffer. -/
theorem C9_counterexample :
    rotate (fun a b => (a, b)) (fun _ => ((0 : Nat), (0 : Nat), (0 : Nat)))
        hugeImg = Except.error CropPanic.panic := by
  simp only [rotate]
  exact rotPass2Outer_width_panic (fun _ => (0, 0, 0)) 2147483648 _ 2147483647
    (by omega)

/-- C9 (amended): provided the buffer's width and height fit in `i32` (are
below `2^31`, so the dimension conversions of the anti-aliasing pass cannot
panic), `rotate` returns — for every rotation map (hence every angle) and
every box average — a buffer of the input's dimensions in which every sample's
alpha channel equals `255`. -/
theorem C9_rotate_dims_and_alpha (rotMap : Nat → Nat → Nat × Nat)
    (boxAvg : List Rgba → Nat × Nat × Nat) (self : Img) (u v : Nat)
    (hW : self.width < 2147483648) (hH : self.height < 2147483648)
    (hu : u < self.width) (hv : v < self.height) :
    ∃ r, rotate rotMap boxAvg self = Except.ok r ∧
      r.width = self.width ∧ r.height = self.height ∧ (r.pix u v).a = 255 := by
  obtain ⟨r, hr, hrw, hrh, halpha⟩ := rotPass2Outer_ok boxAvg self.width
    self.height (rotPass1Outer self rotMap (mkImg self.width self.height)
      self.width) self.width hW hH
  refine ⟨r, ?_, ?_, ?_, halpha u v hu hv⟩
  · simp only [rotate]
    exact hr
  · rw [hrw, rotPass1Outer_width]
    rfl
  · rw [hrh, rotPass1Outer_height]
    rfl

/-- C9 witness: the amended theorem applied to a 1×1 buffer (whose only
sample has alpha 9), the identity rotation map, and the zero box average. -/
theorem C9_witness :
    (wOne.width < 2147483648 ∧ wOne.height < 2147483648 ∧
      (0 : Nat) < wOne.width ∧ (0 : Nat) < wOne.height) ∧
    (∃ r, rotate (fun a b => (a, b)) (fun _ => ((0 : Nat), (0 : Nat), (0 : Nat)))
        wOne = Except.ok r ∧
      r.width = wOne.width ∧ r.height = wOne.height ∧ (r.pix 0 0).a = 255) :=
  ⟨by decide, C9_rotate_dims_and_alpha (fun a b => (a, b))
    (fun _ => (0, 0, 0)) wOne 0 0 (by decide) (by decide) (by decide) (by decide)⟩

/-- When the generator succeeds on every index below `n`, the frame-building
loop of `create_gif` produces exactly the frames for indices `0, …, n - 1`,
in increasing order, appended to the frames already collected. -/
theorem gifFold_ok {A B : Type} (a : A) (b : B) (ms : Nat)
    (f : Nat → A → B → Except APIResponseError Img) (g : Nat → Img) (n : Nat)
    (h : ∀ i, i < n → f i a b = Except.ok (g i)) (init : List FrameT) :
    (List.range n).foldlM
        (fun frames i => do
          let output ← f i a b
          pure (frames ++ [FrameT.mk output 0 0 ms 1]))
        init =
      Except.ok (init ++ (List.range n).map (fun i => FrameT.mk (g i) 0 0 ms 1)) := by
  induction n generalizing init with
  | zero => simp
  | succ m ih =>
    rw [List.range_succ, List.foldlM_append, ih (fun i hi => h i (by omega))]
    simp [h m (by omega)]

/-- If the generator succeeds on every index below `k` and fails at `k < n`,
the frame-building loop of `create_gif` fails with that error. -/
theorem gifFold_err {A B : Type} (a : A) (b : B) (ms : Nat)
    (f : Nat → A → B → Except APIResponseError Img) (k n : Nat)
    (e : APIResponseError) (hk : k < n)
    (hok : ∀ j, j < k → ∃ im, f j a b = Except.ok im)
    (he : f k a b = Except.error e) (init : List FrameT) :
    (List.range n).foldlM
        (fun frames i => do
          let output ← f i a b
          pure (frames ++ [FrameT.mk output 0 0 ms 1]))
        init = Except.error e := by
  classical
  obtain ⟨g, hg⟩ : ∃ g : Nat → Img, ∀ j, j < k → f j a b = Except.ok (g j) := by
    refine ⟨fun j => if hj : j < k then (hok j hj).choose else mkImg 0 0,
      fun j hj => ?_⟩
    dsimp only
    rw [dif_pos hj]
    exact (hok j hj).choose_spec
  obtain ⟨m, rfl⟩ : ∃ m, n = (k + 1) + m := ⟨n - (k + 1), by omega⟩
  rw [List.range_add, List.foldlM_append, List.range_succ, List.foldlM_append,
    gifFold_ok a b ms f g k hg init]
  simp [he]

/-- C10: `create_gif` consults its generator exactly once per frame index
`0, …, n - 1` in increasing order with the two ingredient values (cloning is
the identity in the pure embedding): when every call succeeds, the encoder
receives precisely the produced frames in index order with the requested
delay; and as soon as one call fails, `create_gif` returns an error and no
byte stream reaches the caller. -/
theorem C10_create_gif_generator (A B : Type)
    (setRepeatResult : Except APIResponseError Unit)
    (encodeFrames : List FrameT → Except APIResponseError (List Nat))
    (a : A) (b : B) (ms n : Nat)
    (f : Nat → A → B → Except APIResponseError Img) :
    (∀ g : Nat → Img, setRepeatResult = Except.ok () →
      (∀ i, i < n → f i a b = Except.ok (g i)) →
      create_gif setRepeatResult encodeFrames a b ms n f =
        (encodeFrames ((List.range n).map (fun i => FrameT.mk (g i) 0 0 ms 1))).map
          (fun bs => { encoding_bytes := bs })) ∧
    (∀ k e, k < n → (∀ j, j < k → ∃ im, f j a b = Except.ok im) →
      f k a b = Except.error e →
      ∃ e2, create_gif setRepeatResult encodeFrames a b ms n f =
        Except.error e2) := by
  constructor
  · intro g hsr hall
    subst hsr
    simp only [create_gif]
    rw [gifFold_ok a b ms f g n hall]
    cases hEf : encodeFrames ((List.range n).map fun i => FrameT.mk (g i) 0 0 ms 1) with
    | error err => simp [hEf, Except.map]
    | ok bs => simp [hEf, Except.map]
  · intro k e hk hok he
    cases setRepeatResult with
    | error s => exact ⟨s, rfl⟩
    | ok u =>
      cases u
      refine ⟨e, ?_⟩
      simp only [create_gif]
      rw [gifFold_err a b ms f k n e hk hok he]
      rfl

/-- C10 witness: the theorem applied to a two-frame animation whose generator
always succeeds, with a codec that reports the frame count. -/
theorem C10_witness :
    ((Except.ok () : Except APIResponseError Unit) = Except.ok () ∧
     (∀ i : Nat, i < 2 →
        (Except.ok (mkImg i i) : Except APIResponseError Img) =
          Except.ok (mkImg i i))) ∧
    create_gif (Except.ok ()) (fun fs => Except.ok [fs.length]) (5 : Nat) (6 : Nat)
        30 2 (fun i _ _ => Except.ok (mkImg i i)) =
      (Except.ok [2] : Except APIResponseError (List Nat)).map
        (fun bs => { encoding_bytes := bs }) := by
  refine ⟨⟨rfl, fun i _ => rfl⟩, ?_⟩
  have h := (C10_create_gif_generator Nat Nat (Except.ok ())
    (fun fs => Except.ok [fs.length]) 5 6 30 2
    (fun i _ _ => Except.ok (mkImg i i))).1 (fun i => mkImg i i) rfl (fun i _ => rfl)
  rw [h]
  rfl

end PepeImage
